import Mathlib

/-!
Shallow embedding of the `whirlwind` ECS core (`src/ecs/world.rs`).

Modelling choices:
* A type-erased `Box<dyn Component>` is a `DynBox`: a dynamic type tag
  (`ty`, standing for `std::any::type_name::<T>()`) plus an opaque payload
  (`val : Nat`).  `downcast_ref::<T>` succeeds exactly when the tag equals
  `T`'s name, which is how `Any`-based downcasting behaves.
* `FastHashMap` is modelled as an association list with insert-or-replace
  semantics (`ainsert`) and first-match lookup (`alookup`).  Hash-map
  iteration order is arbitrary in the source; the list fixes one order, and
  every theorem below is either order-independent or quantifies over all
  entries of the map.
* A Rust panic (`expect`, index out of bounds) is modelled by `Except`
  (carrying the panic message) or by an `Option` result (`none` = panic).
* `SystemFn` (a plain `fn(&mut World)` pointer) is modelled by a numeric
  system id interpreted by an environment `env : Nat → World → World`
  supplied to `run_schedule`; the `World` stores only the ids, exactly as
  the source stores only function pointers with no captured state.
-/

namespace Whirlwind

/-- A type-erased boxed component value: the dynamic type name plus an
opaque payload. Models `Box<dyn Component>`. -/
structure DynBox where
  ty : String
  val : Nat
deriving DecidableEq, Repr

/-- One slot of a component array: `Option<Box<dyn Component>>`. -/
abbrev Slot := Option DynBox

/-- First-match association-list lookup; models `HashMap::get`. -/
def alookup {α : Type} (k : String) : List (String × α) → Option α
  | [] => none
  | (k', v) :: rest => if k' = k then some v else alookup k rest

/-- Insert-or-replace; models `HashMap::insert`. -/
def ainsert {α : Type} (k : String) (v : α) : List (String × α) → List (String × α)
  | [] => [(k, v)]
  | (k', v') :: rest => if k' = k then (k, v) :: rest else (k', v') :: ainsert k v rest

/-- The World: one array of optional boxed components per registered type,
singleton resources, and named ordered lists of system ids. Models
`struct World` in `src/ecs/world.rs`. -/
structure World where
  components : List (String × List Slot)
  resources : List (String × DynBox)
  schedules : List (String × List Nat)
deriving DecidableEq, Repr

namespace World

/-- `World::new` (i.e. `World::default`). -/
def new : World := ⟨[], [], []⟩

end World

/-- `self.components.values().next().map_or(0, |v| v.len())`: the length of
the first component array in iteration order, or 0 for an empty registry. -/
def firstLen (w : World) : Nat :=
  match w.components with
  | [] => 0
  | (_, arr) :: _ => arr.length

/-- `World::register_component::<T>`: insert a fresh array for `T` of
length `firstLen` (the `(0..len).map(|_| None).collect()` backfill). -/
def register_component (ty : String) (w : World) : World :=
  { w with components := ainsert ty (List.replicate (firstLen w) none) w.components }

/-- `World::insert_resource::<T>`: insert-or-replace the singleton boxed
value for `T`. -/
def insert_resource (ty : String) (v : Nat) (w : World) : World :=
  { w with resources := ainsert ty ⟨ty, v⟩ w.resources }

/-- `World::get_resource::<T>`: lookup then checked downcast. -/
def get_resource (ty : String) (w : World) : Option Nat :=
  (alookup ty w.resources).bind fun b => if b.ty = ty then some b.val else none

/-- `World::get_resource_mut::<T>`: same success condition as
`get_resource`, returning the same value (a `&mut` in the source). -/
def get_resource_mut (ty : String) (w : World) : Option Nat :=
  (alookup ty w.resources).bind fun b => if b.ty = ty then some b.val else none

/-- `World::resource::<T>`: `get_resource().expect("Resource not found")`;
`Except.error` carries the panic message. -/
def World.resource (ty : String) (w : World) : Except String Nat :=
  match get_resource ty w with
  | some v => .ok v
  | none => .error "Resource not found"

/-- `World::resource_mut::<T>`: `get_resource_mut().expect("Resource not found")`. -/
def World.resource_mut (ty : String) (w : World) : Except String Nat :=
  match get_resource_mut ty w with
  | some v => .ok v
  | none => .error "Resource not found"

/-- `World::spawn`: the new entity id is the length of the first component
array (0 for an empty registry), then one `None` slot is pushed onto every
registered array. Returns (updated world, entity id). -/
def spawn (w : World) : World × Nat :=
  let id := firstLen w
  ({ w with components := w.components.map fun p => (p.1, p.2 ++ [none]) }, id)

/-- One iteration of the `despawn` loop body:
`if let Some(component) = components.get_mut(entity.0) { *component = None }`. -/
def clearSlot (arr : List Slot) (e : Nat) : List Slot :=
  match arr.get? e with
  | some _ => arr.set e none
  | none => arr

/-- `World::despawn`: clear the slot at the entity's row in every
registered component array (rows out of range are skipped). -/
def despawn (e : Nat) (w : World) : World :=
  { w with components := w.components.map fun p => (p.1, clearSlot p.2 e) }

/-- `World::get_component::<T>`: registered-array lookup, checked row
access, occupied slot, checked downcast — absence at any step is `none`. -/
def get_component (ty : String) (e : Nat) (w : World) : Option Nat :=
  (alookup ty w.components).bind fun arr =>
    (arr.get? e).bind fun c => c.bind fun b =>
      if b.ty = ty then some b.val else none

/-- `World::get_component_mut::<T>`: same success condition and value as
`get_component` (a `&mut` in the source). -/
def get_component_mut (ty : String) (e : Nat) (w : World) : Option Nat :=
  (alookup ty w.components).bind fun arr =>
    (arr.get? e).bind fun c => c.bind fun b =>
      if b.ty = ty then some b.val else none

/-- `EntityWorld::component::<T>`:
`get_component().expect("Component not found")`. -/
def EntityWorld.component (ty : String) (e : Nat) (w : World) : Except String Nat :=
  match get_component ty e w with
  | some v => .ok v
  | none => .error "Component not found"

/-- `EntityWorld::component_mut::<T>`:
`get_component_mut().expect("Component not found")`. -/
def EntityWorld.component_mut (ty : String) (e : Nat) (w : World) : Except String Nat :=
  match get_component_mut ty e w with
  | some v => .ok v
  | none => .error "Component not found"

/-- `World::add_component::<T>`: when `T`'s array exists, write the boxed
value at the entity's row — `components[entity.0] = Some(Box::new(v))`
panics when the row is past the end, modelled by the `none` result;
otherwise `register_component::<T>` first and recurse, as the source does. -/
def add_component (ty : String) (v : Nat) (e : Nat) (w : World) : Option World :=
  match h : alookup ty w.components with
  | some arr =>
      if e < arr.length then
        some { w with components := ainsert ty (arr.set e (some ⟨ty, v⟩)) w.components }
      else
        none
  | none => add_component ty v e (register_component ty w)
termination_by (alookup ty w.components).elim 1 fun _ => 0
decreasing_by
  have hreg : ∀ (y : List Slot) (l : List (String × List Slot)),
      alookup ty (ainsert ty y l) = some y := by
    intro y l
    induction l with
    | nil => simp [ainsert, alookup]
    | cons p rest ih =>
      by_cases hp : p.1 = ty
      · simp [ainsert, alookup, hp]
      · simp [ainsert, alookup, hp, ih]
  simp [register_component, hreg, h]

/-- The loop of `World::query`: `iter().enumerate().filter_map(...)`,
where `i` is the row index of the head of `arr`. A slot contributes a pair
exactly when it is occupied and its dynamic type downcasts to `T`. -/
def queryAux (ty : String) : List Slot → Nat → List (Nat × Nat)
  | [], _ => []
  | none :: rest, i => queryAux ty rest (i + 1)
  | some b :: rest, i =>
      if b.ty = ty then (i, b.val) :: queryAux ty rest (i + 1)
      else queryAux ty rest (i + 1)

/-- `World::query::<T>`: all (entity, value) pairs with an occupied `T`
slot, in row order; empty when `T` has no array. -/
def query (ty : String) (w : World) : List (Nat × Nat) :=
  match alookup ty w.components with
  | some arr => queryAux ty arr 0
  | none => []

/-- `World::query_mut::<T>`: same body as `query` over `iter_mut`. -/
def query_mut (ty : String) (w : World) : List (Nat × Nat) :=
  match alookup ty w.components with
  | some arr => queryAux ty arr 0
  | none => []

/-- `World::get_single::<T>`: absence unless `T`'s array exists and has
total length exactly 1; then the first slot that downcasts to `T`. -/
def get_single (ty : String) (w : World) : Option Nat :=
  (alookup ty w.components).bind fun arr =>
    if arr.length ≠ 1 then none
    else (arr.filterMap fun c => c.bind fun b =>
      if b.ty = ty then some b.val else none).head?

/-- `World::get_single_mut::<T>`: same body as `get_single` over `iter_mut`. -/
def get_single_mut (ty : String) (w : World) : Option Nat :=
  (alookup ty w.components).bind fun arr =>
    if arr.length ≠ 1 then none
    else (arr.filterMap fun c => c.bind fun b =>
      if b.ty = ty then some b.val else none).head?

/-- `World::single::<T>`: `get_single().expect("Expected exactly one component")`. -/
def World.single (ty : String) (w : World) : Except String Nat :=
  match get_single ty w with
  | some v => .ok v
  | none => .error "Expected exactly one component"

/-- `World::single_mut::<T>`: `get_single_mut().expect("Expected exactly one component")`. -/
def World.single_mut (ty : String) (w : World) : Except String Nat :=
  match get_single_mut ty w with
  | some v => .ok v
  | none => .error "Expected exactly one component"

/-- `World::register_schedule`: insert an empty system list under the name. -/
def register_schedule (name : String) (w : World) : World :=
  { w with schedules := ainsert name [] w.schedules }

/-- `World::add_system`: append the system to the named schedule; silently
a no-op when the schedule name is unknown. -/
def add_system (name : String) (s : Nat) (w : World) : World :=
  match alookup name w.schedules with
  | some ss => { w with schedules := ainsert name (ss ++ [s]) w.schedules }
  | none => w

/-- `World::run_schedule`: clone the schedule's system list, then run each
system in order, each receiving the whole (exclusive) `World`; a no-op for
an unknown name. `env` interprets system ids as the stored `fn(&mut World)`
pointers. -/
def run_schedule (env : Nat → World → World) (name : String) (w : World) : World :=
  match alookup name w.schedules with
  | some ss => ss.foldl (fun acc s => env s acc) w
  | none => w

/-- An interleaving step for the row-alignment claim: either a
`register_component` for some type name or a `spawn`. -/
inductive WOp where
  | reg (ty : String)
  | sp
deriving DecidableEq, Repr

/-- Apply one `WOp` to the world. -/
def applyOp (w : World) : WOp → World
  | .reg ty => register_component ty w
  | .sp => (spawn w).1

/-- Apply a sequence of `register_component` / `spawn` calls in order. -/
def applyOps (w : World) (ops : List WOp) : World := ops.foldl applyOp w

/-- Number of `spawn` calls in a sequence. -/
def spawnCount : List WOp → Nat
  | [] => 0
  | .sp :: rest => spawnCount rest + 1
  | .reg _ :: rest => spawnCount rest

/-- Number of `spawn` calls made while at least one component type is
registered; the flag records whether the registry is already nonempty. -/
def effSpawns : Bool → List WOp → Nat
  | _, [] => 0
  | _, .reg _ :: rest => effSpawns true rest
  | b, .sp :: rest => (if b then 1 else 0) + effSpawns b rest

/-- All component arrays of the world have length `n`. -/
def allLen (w : World) (n : Nat) : Prop :=
  ∀ p ∈ w.components, (p.2 : List Slot).length = n

instance (w : World) (n : Nat) : Decidable (allLen w n) :=
  inferInstanceAs (Decidable (∀ p ∈ w.components, (p.2 : List Slot).length = n))

/-- The number of rows `T`'s array has, or would get on registration. -/
def rowCount (ty : String) (w : World) : Nat :=
  match alookup ty w.components with
  | some arr => arr.length
  | none => firstLen w

/-- Character-sequence containment: does the second list contain the first
as a contiguous run? -/
def containsSeq (t : List Char) : List Char → Bool
  | [] => t.isEmpty
  | c :: rest => t.isPrefixOf (c :: rest) || containsSeq t rest

/-- Does the diagnostic `msg` mention the token `t` (as a substring)?
Formalizes "a diagnostic identifying which type or entity was expected". -/
def msgMentions (msg t : String) : Bool := containsSeq t.toList msg.toList

/-- Interpretation of the two demo systems of the schedule scenario:
system 1 sets resource `X` to 1; system 2 reads `X` and sets `Y` to `X+1`. -/
def demoEnv : Nat → World → World
  | 1, w => insert_resource "X" 1 w
  | 2, w => insert_resource "Y" ((get_resource "X" w).getD 0 + 1) w
  | _, w => w

/-- Register schedule "update", then add system 1 and system 2 in order. -/
def demoWorld : World :=
  add_system "update" 2 (add_system "update" 1 (register_schedule "update" World.new))

/-- Interpretation for the snapshot scenario: system 0 appends a digit 1 to
the `log` resource and then adds system 1 to the running "upd" schedule;
every other system `s` appends the digit `s+1` to `log`. -/
def env9 : Nat → World → World
  | 0, w => add_system "upd" 1 (insert_resource "log" (10 * (get_resource "log" w).getD 0 + 1) w)
  | s, w => insert_resource "log" (10 * (get_resource "log" w).getD 0 + (s + 1)) w

/-- Register schedule "upd" with the single system 0. -/
def w9 : World := add_system "upd" 0 (register_schedule "upd" World.new)

/-- A world with one registered type `T` and one row holding a `T` value 3:
the state reached by `register T; spawn; add_component T 3`. -/
def W8 : World := ⟨[("T", [some ⟨"T", 3⟩])], [], []⟩

theorem alookup_ainsert_self {α : Type} (k : String) (v : α) (l : List (String × α)) :
    alookup k (ainsert k v l) = some v := by
  induction l with
  | nil => simp [ainsert, alookup]
  | cons p rest ih =>
    by_cases h : p.1 = k
    · simp [ainsert, alookup, h]
    · simp [ainsert, alookup, h, ih]

theorem alookup_ainsert_ne {α : Type} (k k' : String) (v : α) (l : List (String × α))
    (h : k' ≠ k) : alookup k' (ainsert k v l) = alookup k' l := by
  have hk : k ≠ k' := fun hk => h hk.symm
  induction l with
  | nil => simp [ainsert, alookup, hk]
  | cons p rest ih =>
    by_cases hp : p.1 = k
    · simp [ainsert, alookup, hp, hk]
    · by_cases hp' : p.1 = k'
      · simp [ainsert, alookup, hp, hp', h]
      · simp [ainsert, alookup, hp, hp', ih]

theorem alookup_mem {α : Type} {k : String} {v : α} {l : List (String × α)}
    (h : alookup k l = some v) : (k, v) ∈ l := by
  induction l with
  | nil => simp [alookup] at h
  | cons p rest ih =>
    obtain ⟨a, b⟩ := p
    by_cases hp : a = k
    · simp [alookup, hp] at h
      simp [hp, h]
    · simp [alookup, hp] at h
      exact List.mem_cons_of_mem _ (ih h)

theorem mem_ainsert {α : Type} {p : String × α} {k : String} {v : α}
    {l : List (String × α)} (h : p ∈ ainsert k v l) : p = (k, v) ∨ p ∈ l := by
  induction l with
  | nil => simp [ainsert] at h; simp [h]
  | cons q rest ih =>
    by_cases hq : q.1 = k
    · simp [ainsert, hq] at h
      rcases h with h | h
      · left; simp [h]
      · right; simp [h]
    · simp [ainsert, hq] at h
      rcases h with h | h
      · right; simp [h]
      · rcases ih h with h' | h'
        · left; exact h'
        · right; simp [h']

theorem ainsert_ne_nil {α : Type} (k : String) (v : α) (l : List (String × α)) :
    ainsert k v l ≠ [] := by
  cases l with
  | nil => simp [ainsert]
  | cons p rest =>
    by_cases hp : p.1 = k <;> simp [ainsert, hp]

theorem alookup_map {α β : Type} (k : String) (f : α → β) (l : List (String × α)) :
    alookup k (l.map fun p => (p.1, f p.2)) = (alookup k l).map f := by
  induction l with
  | nil => simp [alookup]
  | cons p rest ih =>
    by_cases hp : p.1 = k
    · simp [alookup, hp]
    · simp [alookup, hp, ih]

theorem add_component_of_some {ty : String} {v e : Nat} {w : World} {arr : List Slot}
    (hl : alookup ty w.components = some arr) :
    add_component ty v e w =
      if e < arr.length then
        some { w with components := ainsert ty (arr.set e (some ⟨ty, v⟩)) w.components }
      else none := by
  rw [add_component.eq_def]
  split
  case _ arr' harr => rw [hl] at harr; cases harr; rfl
  case _ harr => rw [hl] at harr; cases harr

theorem add_component_of_none {ty : String} {v e : Nat} {w : World}
    (hl : alookup ty w.components = none) :
    add_component ty v e w = add_component ty v e (register_component ty w) := by
  rw [add_component.eq_def]
  split
  case _ arr' harr => rw [hl] at harr; cases harr
  case _ harr => rfl

theorem allLen_applyOps (ops : List WOp) :
    ∀ (w : World) (n : Nat) (b : Bool), allLen w n → (w.components = [] → n = 0) →
      (b = false ↔ w.components = []) →
      allLen (applyOps w ops) (n + effSpawns b ops) ∧
      ((applyOps w ops).components = [] → n + effSpawns b ops = 0) := by
  induction ops with
  | nil =>
    intro w n b hall hz _
    simpa [applyOps, effSpawns] using ⟨hall, hz⟩
  | cons op rest ih =>
    intro w n b hall hz hb
    cases op with
    | reg ty =>
      have hfl : firstLen w = n := by
        cases hcomp : w.components with
        | nil => simp [firstLen, hcomp, hz hcomp]
        | cons p l =>
          have hp : p ∈ w.components := by simp [hcomp]
          simp [firstLen, hcomp, hall p hp]
      have hall' : allLen (register_component ty w) n := by
        intro p hp
        rcases mem_ainsert hp with h | h
        · simp [h, hfl]
        · exact hall p h
      have hz' : (register_component ty w).components = [] → n = 0 :=
        fun h => absurd h (ainsert_ne_nil _ _ _)
      have hb' : (true = false) ↔ (register_component ty w).components = [] := by
        constructor
        · intro h; cases h
        · intro h; exact absurd h (ainsert_ne_nil _ _ _)
      have hmain := ih (register_component ty w) n true hall' hz' hb'
      simpa [applyOps, applyOp, effSpawns] using hmain
    | sp =>
      cases hcomp : w.components with
      | nil =>
        have hb0 : b = false := hb.mpr hcomp
        subst hb0
        have hw' : ((spawn w).1).components = [] := by
          simp [spawn, hcomp]
        have hall' : allLen (spawn w).1 n := by
          intro p hp
          rw [hw'] at hp
          cases hp
        have hz' : ((spawn w).1).components = [] → n = 0 := fun _ => hz hcomp
        have hb' : (false = false) ↔ ((spawn w).1).components = [] := by
          simp [hw']
        have hmain := ih (spawn w).1 n false hall' hz' hb'
        simpa [applyOps, applyOp, effSpawns] using hmain
      | cons q l =>
        have hb1 : b = true := by
          cases b with
          | false => exact absurd (hb.mp rfl) (by simp [hcomp])
          | true => rfl
        subst hb1
        have hall' : allLen (spawn w).1 (n + 1) := by
          intro p hp
          simp only [spawn, List.mem_map] at hp
          obtain ⟨q', hq', hpq⟩ := hp
          simp [← hpq, hall q' hq']
        have hz' : ((spawn w).1).components = [] → n + 1 = 0 := by
          intro h
          simp [spawn, hcomp] at h
        have hb' : (true = false) ↔ ((spawn w).1).components = [] := by
          constructor
          · intro h; cases h
          · intro h; simp [spawn, hcomp] at h
        have hmain := ih (spawn w).1 (n + 1) true hall' hz' hb'
        simpa [applyOps, applyOp, effSpawns, Nat.add_assoc] using hmain

/-- C1, as stated, is false: the sequence `spawn; register_component T`
performs one spawn, yet afterwards the registered array for `T` has length
0, not 1 — a spawn with an empty registry appends to no array, and the
later registration backfills from the (empty) registry. -/
theorem c1_counterexample :
    spawnCount [WOp.sp, WOp.reg "T"] = 1 ∧
    alookup "T" (applyOps World.new [WOp.sp, WOp.reg "T"]).components = some [] ∧
    (0 : Nat) ≠ 1 := by
  refine ⟨rfl, by decide, by decide⟩

/-- C1 (amended): after any interleaving of `register_component` and
`spawn` calls starting from `World::new`, every registered component array
has length equal to the number of `spawn` calls made while at least one
component type was registered (spawns with an empty registry add no rows).
In particular all registered arrays share the same length. -/
theorem c1_row_alignment (ops : List WOp) (ty : String) (arr : List Slot)
    (h : alookup ty (applyOps World.new ops).components = some arr) :
    arr.length = effSpawns false ops := by
  have hmain := allLen_applyOps ops World.new 0 false
    (by intro p hp; simp [World.new] at hp) (fun _ => rfl) (by simp [World.new])
  have hmem := alookup_mem h
  simpa using hmain.1 (ty, arr) hmem

/-- Witness for `c1_row_alignment` at the sequence
`register T; spawn; spawn`. -/
theorem c1_row_alignment_witness :
    alookup "T" (applyOps World.new [WOp.reg "T", WOp.sp, WOp.sp]).components =
      some [none, none] ∧
    ([none, none] : List Slot).length = effSpawns false [WOp.reg "T", WOp.sp, WOp.sp] :=
  ⟨by decide, c1_row_alignment [WOp.reg "T", WOp.sp, WOp.sp] "T" [none, none] (by decide)⟩

/-- C2, as stated, is false: the first `spawn` on a fresh world (empty
registry) returns entity 0 without lengthening any array, and the
subsequent `add_component::<T>` registers `T` with a backfill of length 0
and then panics on the out-of-bounds store `components[0]` (modelled by the
`none` result), so no value is stored. -/
theorem c2_counterexample :
    (spawn World.new).2 = 0 ∧
    add_component "T" 5 0 (spawn World.new).1 = none := by
  refine ⟨rfl, ?_⟩
  rw [add_component]
  rw [add_component]
  decide

/-- C2 (amended): for an entity whose row index is below the row count
`T`'s array has (or, via `firstLen`, would get on registration),
`add_component` stores the value at that row — registering `T` first with
backfilled absent slots when needed — and an immediately following
`get_component` returns it. Entities spawned while no component type was
registered can sit at or past the arrays' length; for those the store is an
out-of-bounds panic (see the counterexample). -/
theorem c2_add_then_get (ty : String) (v e : Nat) (w : World)
    (h : e < rowCount ty w) :
    ∃ w', add_component ty v e w = some w' ∧ get_component ty e w' = some v := by
  cases hl : alookup ty w.components with
  | some arr =>
    have he : e < arr.length := by simpa [rowCount, hl] using h
    refine ⟨_, by rw [add_component_of_some hl, if_pos he], ?_⟩
    simp only [get_component, alookup_ainsert_self, Option.bind_some]
    simp [List.getElem?_set_eq_of_lt _ he]
  | none =>
    have he : e < firstLen w := by simpa [rowCount, hl] using h
    have hl' : alookup ty (register_component ty w).components =
        some (List.replicate (firstLen w) (none : Slot)) := by
      simp [register_component, alookup_ainsert_self]
    have hlen : e < (List.replicate (firstLen w) (none : Slot)).length := by
      simpa using he
    refine ⟨_, by rw [add_component_of_none hl, add_component_of_some hl', if_pos hlen], ?_⟩
    simp only [get_component, alookup_ainsert_self, Option.bind_some]
    simp [List.getElem?_set_eq_of_lt _ hlen]

/-- Witness for `c2_add_then_get`: one registered type, one spawned row,
store 7 at row 0 and read it back. -/
theorem c2_witness :
    (0 : Nat) < rowCount "T" (spawn (register_component "T" World.new)).1 ∧
    ∃ w', add_component "T" 7 0 (spawn (register_component "T" World.new)).1 = some w' ∧
      get_component "T" 0 w' = some 7 :=
  ⟨by decide,
    c2_add_then_get "T" 7 0 (spawn (register_component "T" World.new)).1 (by decide)⟩

theorem queryAux_mem (ty : String) (arr : List Slot) :
    ∀ (i e v : Nat), (e, v) ∈ queryAux ty arr i ↔
      ∃ k, arr.get? k = some (some ⟨ty, v⟩) ∧ e = i + k := by
  induction arr with
  | nil =>
    intro i e v
    simp [queryAux]
  | cons c rest ih =>
    intro i e v
    cases c with
    | none =>
      rw [queryAux, ih]
      constructor
      · rintro ⟨k, hk, he⟩
        exact ⟨k + 1, by simpa using hk, by omega⟩
      · rintro ⟨k, hk, he⟩
        cases k with
        | zero => simp at hk
        | succ k => exact ⟨k, by simpa using hk, by omega⟩
    | some b =>
      by_cases hb : b.ty = ty
      · rw [queryAux, if_pos hb]
        simp only [List.mem_cons, ih, Prod.mk.injEq]
        constructor
        · rintro (⟨he, hv⟩ | ⟨k, hk, he⟩)
          · refine ⟨0, ?_, by omega⟩
            have hbv : b = ⟨ty, v⟩ := by
              obtain ⟨bt, bv⟩ := b
              simp at hb hv
              simp [hb, hv]
            simp [hbv]
          · exact ⟨k + 1, by simpa using hk, by omega⟩
        · rintro ⟨k, hk, he⟩
          cases k with
          | zero =>
            simp at hk
            exact Or.inl ⟨by omega, by simp [hk]⟩
          | succ k => exact Or.inr ⟨k, by simpa using hk, by omega⟩
      · rw [queryAux, if_neg hb]
        rw [ih]
        constructor
        · rintro ⟨k, hk, he⟩
          exact ⟨k + 1, by simpa using hk, by omega⟩
        · rintro ⟨k, hk, he⟩
          cases k with
          | zero =>
            simp at hk
            exact absurd (by simp [hk]) hb
          | succ k => exact ⟨k, by simpa using hk, by omega⟩

theorem queryAux_lbound (ty : String) (arr : List Slot) (i : Nat) :
    ∀ p ∈ queryAux ty arr i, i ≤ p.1 := by
  intro p hp
  obtain ⟨k, hk, he⟩ := (queryAux_mem ty arr i p.1 p.2).mp (by simpa using hp)
  omega

theorem queryAux_pairwise (ty : String) (arr : List Slot) :
    ∀ i : Nat, List.Pairwise (fun p q => p.1 < q.1) (queryAux ty arr i) := by
  induction arr with
  | nil =>
    intro i
    simp [queryAux]
  | cons c rest ih =>
    intro i
    cases c with
    | none =>
      rw [queryAux]
      exact ih (i + 1)
    | some b =>
      by_cases hb : b.ty = ty
      · rw [queryAux, if_pos hb]
        refine List.Pairwise.cons ?_ (ih (i + 1))
        intro q hq
        have := queryAux_lbound ty rest (i + 1) q hq
        simp only
        omega
      · rw [queryAux, if_neg hb]
        exact ih (i + 1)

/-- C3: `get_single::<T>` returns a value exactly when `T`'s array exists,
its total row count is 1, and that single slot is occupied by a value of
dynamic type `T`; it returns absence whenever the row count differs from 1
(even if exactly one row is occupied) or the array is missing. The same
holds for `get_single_mut`. -/
theorem c3_get_single (ty : String) (v : Nat) (w : World) :
    (get_single ty w = some v ↔ alookup ty w.components = some [some ⟨ty, v⟩]) ∧
    (∀ arr, alookup ty w.components = some arr → arr.length ≠ 1 → get_single ty w = none) ∧
    (alookup ty w.components = none → get_single ty w = none) ∧
    get_single_mut ty w = get_single ty w := by
  refine ⟨⟨?_, ?_⟩, ?_, ?_, rfl⟩
  · intro h
    cases hl : alookup ty w.components with
    | none => simp [get_single, hl] at h
    | some arr =>
      by_cases hlen : arr.length = 1
      · obtain ⟨c, rfl⟩ := List.length_eq_one.mp hlen
        cases c with
        | none => simp [get_single, hl] at h
        | some b =>
          by_cases hb : b.ty = ty
          · simp [get_single, hl, hb] at h
            obtain ⟨bt, bv⟩ := b
            simp at hb h
            simp [hl, hb, h]
          · simp [get_single, hl, hb] at h
      · simp [get_single, hl, hlen] at h
  · intro h
    simp [get_single, h]
  · intro arr hl hlen
    simp [get_single, hl, hlen]
  · intro h
    simp [get_single, h]

/-- C4: `run_schedule` runs exactly the systems registered under the name,
sequentially in the order `add_system` appended them, each system receiving
the whole world produced by its predecessor; an unknown name is a no-op.
Concretely, with system 1 setting resource `X` to 1 and system 2 setting
`Y` to `X + 1`, running schedule "update" built by
`register_schedule; add_system 1; add_system 2` leaves `Y = 2`. -/
theorem c4_run_schedule (env : Nat → World → World) (w : World) (name : String) :
    (alookup name w.schedules = none → run_schedule env name w = w) ∧
    (∀ ss, alookup name w.schedules = some ss →
      run_schedule env name w = ss.foldl (fun acc s => env s acc) w) ∧
    alookup "update" demoWorld.schedules = some [1, 2] ∧
    run_schedule demoEnv "update" demoWorld =
      insert_resource "Y" 2 (insert_resource "X" 1 demoWorld) ∧
    get_resource "Y" (run_schedule demoEnv "update" demoWorld) = some 2 := by
  refine ⟨?_, ?_, by decide, by decide, by decide⟩
  · intro h
    simp [run_schedule, h]
  · intro ss h
    simp [run_schedule, h]

/-- C5, as stated, is false in its diagnostic part: `resource::<X>` on a
world without that resource halts with the fixed message
"Resource not found", which does not mention the expected type `X` at all
(no substring occurrence). -/
theorem c5_counterexample :
    get_resource "X" World.new = none ∧
    World.resource "X" World.new = Except.error "Resource not found" ∧
    msgMentions "Resource not found" "X" = false := by
  exact ⟨rfl, rfl, by decide⟩

/-- C5 (amended): every bare accessor halts exactly when its `get_`
counterpart returns absence and otherwise returns the same value; the halt
carries a fixed diagnostic naming the kind of item ("Resource not found",
"Expected exactly one component", "Component not found") but not the
concrete type or entity that was expected. -/
theorem c5_bare_accessors (ty : String) (e v : Nat) (w : World) :
    (World.resource ty w = .ok v ↔ get_resource ty w = some v) ∧
    (World.resource ty w = .error "Resource not found" ↔ get_resource ty w = none) ∧
    (World.resource_mut ty w = .ok v ↔ get_resource_mut ty w = some v) ∧
    (World.resource_mut ty w = .error "Resource not found" ↔ get_resource_mut ty w = none) ∧
    (World.single ty w = .ok v ↔ get_single ty w = some v) ∧
    (World.single ty w = .error "Expected exactly one component" ↔ get_single ty w = none) ∧
    (World.single_mut ty w = .ok v ↔ get_single_mut ty w = some v) ∧
    (World.single_mut ty w = .error "Expected exactly one component" ↔
      get_single_mut ty w = none) ∧
    (EntityWorld.component ty e w = .ok v ↔ get_component ty e w = some v) ∧
    (EntityWorld.component ty e w = .error "Component not found" ↔
      get_component ty e w = none) ∧
    (EntityWorld.component_mut ty e w = .ok v ↔ get_component_mut ty e w = some v) ∧
    (EntityWorld.component_mut ty e w = .error "Component not found" ↔
      get_component_mut ty e w = none) := by
  refine ⟨?_, ?_, ?_, ?_, ?_, ?_, ?_, ?_, ?_, ?_, ?_, ?_⟩
  · cases h : get_resource ty w <;> simp [World.resource, h]
  · cases h : get_resource ty w <;> simp [World.resource, h]
  · cases h : get_resource_mut ty w <;> simp [World.resource_mut, h]
  · cases h : get_resource_mut ty w <;> simp [World.resource_mut, h]
  · cases h : get_single ty w <;> simp [World.single, h]
  · cases h : get_single ty w <;> simp [World.single, h]
  · cases h : get_single_mut ty w <;> simp [World.single_mut, h]
  · cases h : get_single_mut ty w <;> simp [World.single_mut, h]
  · cases h : get_component ty e w <;> simp [EntityWorld.component, h]
  · cases h : get_component ty e w <;> simp [EntityWorld.component, h]
  · cases h : get_component_mut ty e w <;> simp [EntityWorld.component_mut, h]
  · cases h : get_component_mut ty e w <;> simp [EntityWorld.component_mut, h]

/-- C6: `query::<T>` returns exactly the rows whose `T` slot is occupied by
a value of dynamic type `T`, as (entity, value) pairs with strictly
ascending row indices (hence no duplicates and no absent rows), and is
empty when `T` has no array; `query_mut` agrees with `query`. -/
theorem c6_query (ty : String) (w : World) :
    (∀ e v, (e, v) ∈ query ty w ↔
      ∃ arr, alookup ty w.components = some arr ∧ arr.get? e = some (some ⟨ty, v⟩)) ∧
    List.Pairwise (fun p q => p.1 < q.1) (query ty w) ∧
    (alookup ty w.components = none → query ty w = []) ∧
    query_mut ty w = query ty w := by
  refine ⟨?_, ?_, ?_, rfl⟩
  · intro e v
    cases hl : alookup ty w.components with
    | none => simp [query, hl]
    | some arr =>
      rw [query]
      rw [hl]
      rw [queryAux_mem]
      simp [hl]
  · cases hl : alookup ty w.components with
    | none => simp [query, hl]
    | some arr =>
      rw [query, hl]
      exact queryAux_pairwise ty arr 0
  · intro h
    simp [query, h]

/-- C7: `despawn` clears the slot at the entity's row in every registered
component array while preserving every array's length and leaving every
slot at every other row untouched; resources and schedules are unchanged. -/
theorem c7_despawn (e : Nat) (w : World) :
    (∀ ty arr, alookup ty w.components = some arr →
      ∃ arr', alookup ty (despawn e w).components = some arr' ∧
        arr'.length = arr.length ∧
        (e < arr.length → arr'.get? e = some none) ∧
        (∀ j, j ≠ e → arr'.get? j = arr.get? j)) ∧
    (despawn e w).resources = w.resources ∧
    (despawn e w).schedules = w.schedules := by
  refine ⟨?_, rfl, rfl⟩
  intro ty arr hl
  have hmap : alookup ty (despawn e w).components = some (clearSlot arr e) := by
    have := alookup_map ty (fun a => clearSlot a e) w.components
    simp only [despawn]
    rw [this, hl]
    rfl
  refine ⟨clearSlot arr e, hmap, ?_, ?_, ?_⟩
  · rw [clearSlot]
    cases h : arr.get? e <;> simp
  · intro he
    rw [clearSlot]
    cases h : arr.get? e with
    | none =>
      rw [List.get?_eq_none] at h
      omega
    | some c =>
      simp [List.getElem?_set_eq_of_lt _ he]
  · intro j hj
    rw [clearSlot]
    cases h : arr.get? e with
    | none => rfl
    | some c =>
      simp only [List.get?_eq_getElem?]
      exact List.getElem?_set_ne (Ne.symm hj)

/-- C8: re-registering an already registered type `T` overwrites its
storage with an all-absent array whose length is the arrays' common length
`n`, discarding all previously stored `T` components, while every other
type's storage, the resources and the schedules are unchanged. -/
theorem c8_reregister (ty : String) (w : World) (n : Nat)
    (hall : allLen w n) (hreg : alookup ty w.components ≠ none) :
    alookup ty (register_component ty w).components =
      some (List.replicate n (none : Slot)) ∧
    (∀ ty', ty' ≠ ty →
      alookup ty' (register_component ty w).components = alookup ty' w.components) ∧
    (register_component ty w).resources = w.resources ∧
    (register_component ty w).schedules = w.schedules := by
  have hfl : firstLen w = n := by
    cases hcomp : w.components with
    | nil => simp [alookup, hcomp] at hreg
    | cons p l =>
      have hp : p ∈ w.components := by simp [hcomp]
      simp [firstLen, hcomp, hall p hp]
  refine ⟨?_, ?_, rfl, rfl⟩
  · simp [register_component, alookup_ainsert_self, hfl]
  · intro ty' h
    simp [register_component, alookup_ainsert_ne _ _ _ _ h]

/-- Witness for `c8_reregister` on the one-row world `W8` that stores a
`T` value at row 0. -/
theorem c8_witness :
    allLen W8 1 ∧ alookup "T" W8.components ≠ none ∧
    (alookup "T" (register_component "T" W8).components =
      some (List.replicate 1 (none : Slot)) ∧
    (∀ ty', ty' ≠ "T" →
      alookup ty' (register_component "T" W8).components = alookup ty' W8.components) ∧
    (register_component "T" W8).resources = W8.resources ∧
    (register_component "T" W8).schedules = W8.schedules) :=
  ⟨by decide, by decide, c8_reregister "T" W8 1 (by decide) (by decide)⟩

/-- C9: `run_schedule` executes the snapshot of the schedule's system list
taken at invocation (the source clones the list before running), so a
system mutating the running schedule does not change the current run; the
mutation is visible to later invocations. Concretely, system 0 of `w9`
appends digit 1 to the `log` resource and adds system 1 to the running
schedule "upd": the first run logs only `1`, leaves the schedule as
`[0, 1]`, and a second run then logs `1` and `2` (log `112`). -/
theorem c9_snapshot :
    (∀ (env : Nat → World → World) (w : World) (name : String),
      run_schedule env name w =
        ((alookup name w.schedules).getD []).foldl (fun acc s => env s acc) w) ∧
    get_resource "log" (run_schedule env9 "upd" w9) = some 1 ∧
    alookup "upd" (run_schedule env9 "upd" w9).schedules = some [0, 1] ∧
    get_resource "log" (run_schedule env9 "upd" (run_schedule env9 "upd" w9)) = some 112 := by
  refine ⟨?_, by decide, by decide, by decide⟩
  intro env w name
  cases h : alookup name w.schedules <;> simp [run_schedule, h]

/-- C10: `despawn` is total for every entity row index — arrays too short
to contain the row are left entirely unchanged (the source's checked
`get_mut` skips them instead of panicking), and in general each array is
updated by the panic-free `clearSlot`. -/
theorem c10_despawn_total (e : Nat) (w : World) :
    (∀ ty, alookup ty (despawn e w).components =
      (alookup ty w.components).map fun arr => clearSlot arr e) ∧
    (∀ ty arr, alookup ty w.components = some arr → arr.length ≤ e →
      alookup ty (despawn e w).components = some arr) := by
  have hmap : ∀ ty, alookup ty (despawn e w).components =
      (alookup ty w.components).map fun arr => clearSlot arr e := by
    intro ty
    have := alookup_map ty (fun a => clearSlot a e) w.components
    simp only [despawn]
    rw [this]
  refine ⟨hmap, ?_⟩
  intro ty arr hl hlen
  rw [hmap ty, hl]
  have hget : arr[e]? = none := List.getElem?_eq_none_iff.mpr hlen
  simp [clearSlot, hget]

end Whirlwind
